import Mathlib

/-!
Verification of the vector retrieval / index-maintenance subsystem and the
multi-provider LLM answering protocol of a retrieval-augmented QA service.

The vector store (`add_chunks`, `query`, `list_documents`, `delete_document`,
`reset_collection`, `get_collection_stats`) is embedded as a pure state
transformer over `VState`.  External collaborators (the sentence-embedding
model, numpy array construction, and the FAISS index) are parameters of an
environment `Env`; operations that can raise in Python return `Except` and
also return the post-state, so that mutations applied before a raised
exception stay visible, exactly as they do on the Python object.
-/

namespace TractianKB

/-- Chunk metadata (the `metadata` dict): the fields the core reads. -/
structure Meta where
  source : Option String
  page : Option Nat
  deriving DecidableEq

/-- A `DocumentChunk` handed to `add_chunks`. -/
structure Chunk where
  text : String
  metadata : Meta
  deriving DecidableEq

/-- One entry of `self._documents` (the metadata log), as built at line 98. -/
structure Record where
  id : String
  text : String
  metadata : Meta
  deriving DecidableEq

/-- A `faiss.IndexFlatIP`: a dimension and the list of stored vectors. -/
structure FaissIndex (Vec : Type) where
  d : Nat
  vecs : List Vec
  deriving DecidableEq

/-- The mutable state of `VectorStoreService`: `self._index`,
`self._documents`, and the two on-disk artifacts (`none` = file absent). -/
structure VState (Vec : Type) where
  index : Option (FaissIndex Vec)
  documents : List Record
  diskIndex : Option (FaissIndex Vec)
  diskDocs : Option (List Record)
  deriving DecidableEq

/-- External collaborators: the embedding service, the numpy row functions,
FAISS search, uuid generation and the configured settings. -/
structure Env (Vec : Type) where
  embedTexts : List String → Except String (List Vec)
  embedQuery : String → Except String Vec
  norm : Vec → Vec
  dim : Vec → Nat
  search : List Vec → Vec → Nat → List (Rat × Int)
  freshId : Nat → String
  topKDefault : Nat
  collectionName : String

variable {Vec : Type}

/-- `self._index.ntotal` with the `None` guard (`0` when no index). -/
def ntotal (s : VState Vec) : Nat :=
  match s.index with
  | none => 0
  | some ix => ix.vecs.length

/-- The vectors currently held by the index (`[]` when no index). -/
def indexVecs (s : VState Vec) : List Vec :=
  match s.index with
  | none => []
  | some ix => ix.vecs

/-- `self._save()`: writes both artifacts, but only when an index exists. -/
def saveState (s : VState Vec) : VState Vec :=
  match s.index with
  | none => s
  | some ix => { s with diskIndex := some ix, diskDocs := some s.documents }

/-- `np.array(embeddings).shape[1]`: fails on an empty batch (no second
axis) or on rows of inhomogeneous length, otherwise yields the row width. -/
def matrixDim (env : Env Vec) : List Vec → Except String Nat
  | [] => Except.error "IndexError: tuple index out of range"
  | v :: vs =>
    if ∀ w ∈ vs, env.dim w = env.dim v then Except.ok (env.dim v)
    else Except.error "ValueError: inhomogeneous array shape"

/-- `index.add(xb)`: FAISS appends the rows, or raises on a dimension
mismatch with the index. -/
def addVecs (env : Env Vec) (ix : FaissIndex Vec) (rows : List Vec) :
    Except String (FaissIndex Vec) :=
  if ∀ v ∈ rows, env.dim v = ix.d then Except.ok { ix with vecs := ix.vecs ++ rows }
  else Except.error "AssertionError: d mismatch in add"

/-- The metadata-log records appended by `add_chunks` (lines 97-104): one
record per `(text, metadata)` pair, each with a fresh id, in batch order. -/
def mkRecords (freshId : Nat → String) : Nat → List (String × Meta) → List Record
  | _, [] => []
  | n, (t, m) :: rest => { id := freshId n, text := t, metadata := m } :: mkRecords freshId (n + 1) rest

/-- `VectorStoreService.add_chunks` (lines 67-110).  Returns the post-state
together with the Python return value (`Except.error` = raised exception). -/
def add_chunks (env : Env Vec) (s : VState Vec) (chunks : List Chunk) :
    VState Vec × Except String Nat :=
  if chunks.isEmpty then (s, Except.ok 0)
  else
    let texts := chunks.map Chunk.text
    let metadatas := chunks.map Chunk.metadata
    match env.embedTexts texts with
    | Except.error e => (s, Except.error e)
    | Except.ok embeddings =>
      match matrixDim env embeddings with
      | Except.error e => (s, Except.error e)
      | Except.ok d =>
        let embeddingsN := embeddings.map env.norm
        let s1 : VState Vec :=
          match s.index with
          | some _ => s
          | none => { s with index := some { d := d, vecs := [] } }
        let ix0 : FaissIndex Vec :=
          match s.index with
          | some ix => ix
          | none => { d := d, vecs := [] }
        match addVecs env ix0 embeddingsN with
        | Except.error e => (s1, Except.error e)
        | Except.ok ix1 =>
          let docs1 := s.documents ++ mkRecords env.freshId 0 (texts.zip metadatas)
          (saveState { s1 with index := some ix1, documents := docs1 }, Except.ok chunks.length)

/-- One formatted query result (`text`, `metadata`, `distance`). -/
structure QueryResult where
  text : String
  metadata : Meta
  distance : Rat
  deriving DecidableEq

/-- `VectorStoreService.query` (lines 112-160).  `query` never mutates the
store; positions outside the metadata log are skipped (lines 144-146). -/
def query (env : Env Vec) (s : VState Vec) (question : String)
    (topK : Option Nat) : Except String (List QueryResult) :=
  let k0 := match topK with
    | none => env.topKDefault
    | some n => if n = 0 then env.topKDefault else n
  match s.index with
  | none => Except.ok []
  | some ix =>
    if ix.vecs.length = 0 then Except.ok []
    else
      let k := min k0 ix.vecs.length
      match env.embedQuery question with
      | Except.error e => Except.error e
      | Except.ok qv =>
        let hits := env.search ix.vecs (env.norm qv) k
        Except.ok (hits.filterMap (fun h =>
          if h.2 < 0 ∨ (s.documents.length : Int) ≤ h.2 then none
          else (s.documents.get? h.2.toNat).map
            (fun doc => { text := doc.text, metadata := doc.metadata, distance := h.1 })))

/-- `VectorStoreService.list_documents` (lines 171-179): sorted distinct
truthy sources. -/
def list_documents (s : VState Vec) : List String :=
  if s.documents.isEmpty then []
  else List.insertionSort (fun a b => a ≤ b)
    (((s.documents.filterMap (fun doc => doc.metadata.source)).filter
      (fun t => t ≠ "")).dedup)

/-- Result of `get_collection_stats`. -/
structure Stats where
  collection_name : String
  total_documents : Nat
  total_chunks : Nat
  deriving DecidableEq

/-- `VectorStoreService.get_collection_stats` (lines 162-169). -/
def get_collection_stats (env : Env Vec) (s : VState Vec) : Stats :=
  { collection_name := env.collectionName
    total_documents := (list_documents s).length
    total_chunks := ntotal s }

/-- `VectorStoreService.reset_collection` (lines 219-227): drops the index
and the metadata log in memory and unlinks both files. -/
def reset_collection (_s : VState Vec) : VState Vec :=
  { index := none, documents := [], diskIndex := none, diskDocs := none }

/-- `VectorStoreService.delete_document` (lines 181-217).  Returns the
post-state with the Python return value (`Except.error` = raised). -/
def delete_document (env : Env Vec) (s : VState Vec) (sourceName : String) :
    VState Vec × Except String Bool :=
  if s.index.isNone ∨ s.documents.isEmpty then (s, Except.ok false)
  else
    let newDocs := s.documents.filter (fun doc => doc.metadata.source ≠ some sourceName)
    if newDocs.length = s.documents.length then (s, Except.ok false)
    else if newDocs.isEmpty then (reset_collection s, Except.ok true)
    else
      let texts := newDocs.map Record.text
      match env.embedTexts texts with
      | Except.error e => (s, Except.error e)
      | Except.ok embeddings =>
        match matrixDim env embeddings with
        | Except.error e => (s, Except.error e)
        | Except.ok d =>
          let embeddingsN := embeddings.map env.norm
          match addVecs env { d := d, vecs := [] } embeddingsN with
          | Except.error e => ({ s with index := some { d := d, vecs := [] } }, Except.error e)
          | Except.ok ix1 =>
            (saveState { s with index := some ix1, documents := newDocs }, Except.ok true)

/-- A mutating operation on the store (the operations named by the
positional-coupling invariant). -/
inductive Op where
  | addOp (chunks : List Chunk)
  | deleteBySource (sourceName : String)
  | resetOp

/-- Run one operation, keeping the post-state whether or not it raised. -/
def applyOp (env : Env Vec) (s : VState Vec) : Op → VState Vec
  | Op.addOp chunks => (add_chunks env s chunks).1
  | Op.deleteBySource n => (delete_document env s n).1
  | Op.resetOp => reset_collection s

/-- Run a sequence of operations left to right. -/
def applyOps (env : Env Vec) (s : VState Vec) (ops : List Op) : VState Vec :=
  ops.foldl (applyOp env) s

/-- The positional-coupling invariant: as many vectors as records, and the
vector at position i is the normalized embedding of the text of the record
at position i. -/
def Inv (env : Env Vec) (f : String → Vec) (s : VState Vec) : Prop :=
  ntotal s = s.documents.length ∧
  indexVecs s = s.documents.map (fun r => env.norm (f r.text))

/-- Embedding-provider contract: a successful batch embedding embeds each
text individually (deterministic pointwise model `f`). -/
def EmbedPointwise (env : Env Vec) (f : String → Vec) : Prop :=
  ∀ ts vs, env.embedTexts ts = Except.ok vs → vs = ts.map f

/-- Embedding-provider contract: one vector per input text. -/
def EmbedLen (env : Env Vec) : Prop :=
  ∀ ts vs, env.embedTexts ts = Except.ok vs → vs.length = ts.length

/-- numpy contract: `faiss.normalize_L2` is in place and keeps row width. -/
def NormDim (env : Env Vec) : Prop :=
  ∀ v, env.dim (env.norm v) = env.dim v

/-- FAISS contract: `search` returns at most k hits. -/
def SearchBound (env : Env Vec) : Prop :=
  ∀ vs q k, (env.search vs q k).length ≤ k

/-- FAISS contract: hits come back sorted by descending score. -/
def SearchSorted (env : Env Vec) : Prop :=
  ∀ vs q k, List.Sorted (fun a b : Rat × Int => b.1 ≤ a.1) (env.search vs q k)

/-!
The answering orchestrator (`LLMService.generate_answer`, llm_service.py).
A provider is its name plus its `generate` capability, which may raise
(`Except.error`).  `generate_answer` additionally returns the trace of
provider names whose `generate` was invoked, in call order, so that claims
about "no provider call made" are expressible.
-/

/-- An answer provider: `name` and `generate(system_prompt, user_prompt)`. -/
structure Provider where
  name : String
  generate : String → String → Except String String

/-- The dict returned by `generate_answer`. -/
structure Answer where
  answer : String
  references : List String
  deriving DecidableEq

/-- The grounding `SYSTEM_PROMPT` (llm_service.py lines 13-20). -/
def SYSTEM_PROMPT : String :=
  "You are a knowledgeable assistant that answers questions based ONLY on the provided context.\n\nRules:\n1. Answer the question using ONLY the information from the context below.\n2. If the context does not contain enough information to answer the question, say so clearly.\n3. Be precise and concise in your answers.\n4. When possible, quote the relevant parts from the context.\n5. Answer in the same language as the question."

/-- `USER_PROMPT_TEMPLATE.format(context=..., question=...)` (lines 22-29). -/
def userPrompt (context question : String) : String :=
  "Context:\n" ++ context ++
  "\n\n---\n\nQuestion: " ++ question ++
  "\n\nProvide a precise answer based on the context above. Include relevant quotes as references."

/-- `_build_context` (lines 32-41): per-chunk source/page header plus text,
joined by blank lines, enumerated from 1. -/
def buildContext (contextChunks : List QueryResult) : String :=
  String.intercalate "\n\n"
    (contextChunks.enum.map (fun p =>
      let source := p.2.metadata.source.getD "unknown"
      let page := match p.2.metadata.page with
        | some n => toString n
        | none => "?"
      "[Source " ++ toString (p.1 + 1) ++ ": " ++ source ++ ", Page " ++ page ++ "]\n" ++ p.2.text))

/-- The fixed no-context message (lines 180-184). -/
def NO_CONTEXT_ANSWER : String :=
  "No relevant documents found to answer this question. Please upload relevant documents first."

/-- The configuration error raised when no provider is available (188-191). -/
def NO_PROVIDERS_ERROR : String :=
  "No LLM providers configured. Set GEMINI_API_KEY or OPENAI_API_KEY in .env"

/-- The error raised when the requested provider is absent (199-202). -/
def providerNotAvailableError (requested : String) : String :=
  "Provider '" ++ requested ++ "' is not available. Check that its API key is set in .env"

/-- The aggregate error raised after the fallback loop exhausts (237-239). -/
def allFailedError (lastError : String) : String :=
  "All LLM providers failed. Last error: " ++ lastError

/-- The fallback loop (lines 213-239): try each provider once in order,
return on first success, remember the last error.  Second component: the
names of the providers invoked, in call order. -/
def tryProviders (ps : List Provider) (up : String) (refs : List String)
    (lastError : Option String) : Except String Answer × List String :=
  match ps with
  | [] =>
    (Except.error (allFailedError (match lastError with | some e => e | none => "None")), [])
  | p :: rest =>
    match p.generate SYSTEM_PROMPT up with
    | Except.ok a => (Except.ok { answer := a, references := refs }, [p.name])
    | Except.error e =>
      ((tryProviders rest up refs (some e)).1, p.name :: (tryProviders rest up refs (some e)).2)

/-- `LLMService.generate_answer` (lines 160-239), for a service whose
`self._providers` registry is `svc`.  `Except.error` models the raised
`RuntimeError`s; the second component is the provider invocation trace. -/
def generate_answer (svc : List Provider) (question : String)
    (contextChunks : List QueryResult) (provider : Option String) :
    Except String Answer × List String :=
  if contextChunks.isEmpty then
    (Except.ok { answer := NO_CONTEXT_ANSWER, references := [] }, [])
  else if svc.isEmpty then
    (Except.error NO_PROVIDERS_ERROR, [])
  else
    let requested := match provider with
      | some r => if r = "" then none else some r
      | none => none
    match requested with
    | some r =>
      let filtered := svc.filter (fun p => p.name = r)
      if filtered.isEmpty then (Except.error (providerNotAvailableError r), [])
      else
        tryProviders filtered (userPrompt (buildContext contextChunks) question)
          (contextChunks.map QueryResult.text) none
    | none =>
      tryProviders svc (userPrompt (buildContext contextChunks) question)
        (contextChunks.map QueryResult.text) none

/-!
Concrete instances used to exercise the theorems on closed inputs: an
integer-vector environment whose embedder maps a text to the one-element
vector of its length, a store built by the operations themselves, and two
toy providers.
-/

/-- A concrete deterministic pointwise embedder. -/
def embedW (t : String) : List Int := [(t.length : Int)]

/-- A concrete environment over integer vectors. -/
def envW : Env (List Int) :=
  { embedTexts := fun ts => Except.ok (ts.map embedW)
    embedQuery := fun t => Except.ok (embedW t)
    norm := id
    dim := List.length
    search := fun _ _ _ => []
    freshId := fun n => "id-" ++ toString n
    topKDefault := 3
    collectionName := "tractian_documents" }

/-- The empty store (fresh service, nothing persisted). -/
def emptyState : VState (List Int) :=
  { index := none, documents := [], diskIndex := none, diskDocs := none }

/-- Concrete chunk metadata. -/
def metaW : Meta := { source := some "spec.pdf", page := some 1 }

/-- A concrete chunk. -/
def chunkW : Chunk := { text := "The motor draws 5A.", metadata := metaW }

/-- A second chunk with a different source. -/
def chunk2W : Chunk :=
  { text := "Torque is 10Nm.", metadata := { source := some "manual.pdf", page := some 2 } }

/-- A one-chunk store, built by `add_chunks` itself. -/
def stateW : VState (List Int) := (add_chunks envW emptyState [chunkW]).1

/-- A concrete retrieved chunk for the orchestrator. -/
def qrW : QueryResult := { text := "The motor draws 5A.", metadata := metaW, distance := 1 }

/-- A provider that always succeeds. -/
def providerOkW : Provider := { name := "gemini", generate := fun _ _ => Except.ok "It draws 5A." }

/-- A provider that always raises. -/
def providerFailW : Provider := { name := "openai", generate := fun _ _ => Except.error "boom" }

/-!
Helper lemmas about the store primitives.
-/

theorem saveState_index (s : VState Vec) : (saveState s).index = s.index := by
  cases h : s.index <;> simp [saveState, h]

theorem saveState_documents (s : VState Vec) : (saveState s).documents = s.documents := by
  cases h : s.index <;> simp [saveState, h]

theorem mkRecords_proj (fid : Nat → String) :
    ∀ (n : Nat) (pairs : List (String × Meta)),
      (mkRecords fid n pairs).map (fun r => (r.text, r.metadata)) = pairs
  | _, [] => rfl
  | n, (t, m) :: rest => by
    simp [mkRecords, mkRecords_proj fid (n + 1) rest]

theorem mkRecords_length (fid : Nat → String) (n : Nat) (pairs : List (String × Meta)) :
    (mkRecords fid n pairs).length = pairs.length := by
  have h := congrArg List.length (mkRecords_proj fid n pairs)
  simpa using h

theorem matrixDim_mem (env : Env Vec) {vs : List Vec} {d : Nat}
    (h : matrixDim env vs = Except.ok d) : ∀ v ∈ vs, env.dim v = d := by
  cases vs with
  | nil => simp [matrixDim] at h
  | cons v rest =>
    simp only [matrixDim] at h
    split at h
    · next hall =>
      injection h with h
      intro w hw
      rcases List.mem_cons.mp hw with rfl | hw
      · exact h
      · rw [hall w hw]; exact h
    · exact absurd h (by simp)

theorem addVecs_ok (env : Env Vec) (ix : FaissIndex Vec) (rows : List Vec)
    (h : ∀ v ∈ rows, env.dim v = ix.d) :
    addVecs env ix rows = Except.ok { ix with vecs := ix.vecs ++ rows } := by
  unfold addVecs
  rw [if_pos h]

/-!
Claim theorems.
-/

/-- Claim C10: `add_chunks` on an empty batch returns 0 and leaves the
store — in-memory index, metadata log and persisted artifacts — unchanged,
for every environment (so no collaborator is consulted). -/
theorem add_chunks_empty_batch (env : Env Vec) (s : VState Vec) :
    add_chunks env s [] = (s, Except.ok 0) := rfl

/-- Claim C8: when no record matches the source, `delete_document` returns
false and the state — index, metadata log, stats and disk artifacts — is
unchanged. -/
theorem delete_document_no_match (env : Env Vec) (s : VState Vec) (src : String)
    (h : ∀ r ∈ s.documents, r.metadata.source ≠ some src) :
    delete_document env s src = (s, Except.ok false) ∧
    get_collection_stats env (delete_document env s src).1 = get_collection_stats env s := by
  have heq : delete_document env s src = (s, Except.ok false) := by
    unfold delete_document
    split
    · rfl
    · have hfilter :
          s.documents.filter (fun doc => doc.metadata.source ≠ some src) = s.documents := by
        rw [List.filter_eq_self]
        intro a ha
        exact decide_eq_true (h a ha)
      simp only [hfilter]
      exact if_pos trivial
  exact ⟨heq, by rw [heq]⟩

/-- Claim C6: with no retrieved chunks, `generate_answer` returns the fixed
no-context message with empty references and invokes no provider (empty
invocation trace), whatever the registry and requested provider. -/
theorem generate_answer_empty_chunks (svc : List Provider) (q : String)
    (req : Option String) :
    generate_answer svc q [] req =
      (Except.ok { answer := NO_CONTEXT_ANSWER, references := [] }, []) := rfl

/-- Claim C7: with non-empty chunks, an empty registry fails with the
configuration error, and a requested name absent from the registry fails
with the named not-available error; in both cases no provider is invoked
(empty trace). -/
theorem generate_answer_provider_errors (q : String) (chunks : List QueryResult)
    (hch : chunks ≠ []) :
    (∀ req, generate_answer [] q chunks req = (Except.error NO_PROVIDERS_ERROR, [])) ∧
    (∀ (svc : List Provider) (r : String), r ≠ "" →
      (∀ p ∈ svc, p.name ≠ r) →
      generate_answer svc q chunks (some r) =
        if svc.isEmpty then (Except.error NO_PROVIDERS_ERROR, [])
        else (Except.error (providerNotAvailableError r), [])) := by
  have hch' : chunks.isEmpty = false := by
    cases chunks with
    | nil => exact absurd rfl hch
    | cons a l => rfl
  constructor
  · intro req
    simp [generate_answer, hch']
  · intro svc r hr hnot
    by_cases hsvc : svc.isEmpty
    · simp [generate_answer, hch', hsvc]
    · have hfilter : svc.filter (fun p => p.name = r) = [] := by
        rw [List.filter_eq_nil_iff]
        intro p hp
        exact (by simpa using hnot p hp)
      simp [generate_answer, hch', hsvc, hr, hfilter]

/-- Exercises C7 on closed inputs: empty registry, then a registry missing
the requested name. -/
theorem generate_answer_provider_errors_witness :
    generate_answer [] "q" [qrW] none = (Except.error NO_PROVIDERS_ERROR, []) ∧
    generate_answer [providerOkW] "q" [qrW] (some "mistral") =
      (Except.error (providerNotAvailableError "mistral"), []) := by
  refine ⟨(generate_answer_provider_errors "q" [qrW] (by simp)).1 none, ?_⟩
  have h := (generate_answer_provider_errors "q" [qrW] (by simp)).2 [providerOkW] "mistral"
    (by decide) (by intro p hp; simp at hp; subst hp; decide)
  simpa [providerOkW] using h

/-- Exercises C8 on a closed input: a one-record store and a source that
matches nothing. -/
theorem delete_document_no_match_witness :
    delete_document envW stateW "other.pdf" = (stateW, Except.ok false) := by
  exact (delete_document_no_match envW stateW "other.pdf" (by decide)).1

theorem tryProviders_first_success (up : String) (refs : List String) (a : String) :
    ∀ (pre : List Provider) (p : Provider) (rest : List Provider) (le : Option String),
      (∀ r ∈ pre, ∃ e, r.generate SYSTEM_PROMPT up = Except.error e) →
      p.generate SYSTEM_PROMPT up = Except.ok a →
      tryProviders (pre ++ p :: rest) up refs le =
        (Except.ok { answer := a, references := refs }, pre.map Provider.name ++ [p.name])
  | [], p, rest, le, _, hp => by
    simp [tryProviders, hp]
  | q :: pre, p, rest, le, hpre, hp => by
    obtain ⟨e, he⟩ := hpre q (List.mem_cons_self q pre)
    have ih := tryProviders_first_success up refs a pre p rest (some e)
      (fun r hr => hpre r (List.mem_cons_of_mem q hr)) hp
    simp [tryProviders, he, ih]

theorem tryProviders_all_fail (up : String) (refs : List String) :
    ∀ (ps : List Provider) (le : Option String) (elast : String) (hne : ps ≠ []),
      (∀ r ∈ ps, ∃ e, r.generate SYSTEM_PROMPT up = Except.error e) →
      (ps.getLast hne).generate SYSTEM_PROMPT up = Except.error elast →
      tryProviders ps up refs le = (Except.error (allFailedError elast), ps.map Provider.name)
  | [], _, _, hne, _, _ => absurd rfl hne
  | [p], le, elast, _, _, hlast => by
    have hp : p.generate SYSTEM_PROMPT up = Except.error elast := by simpa using hlast
    simp [tryProviders, hp]
  | p :: q :: rest, le, elast, _, hall, hlast => by
    obtain ⟨e, he⟩ := hall p (List.mem_cons_self p (q :: rest))
    have hlast' : ((q :: rest).getLast (by simp)).generate SYSTEM_PROMPT up
        = Except.error elast := by
      rwa [List.getLast_cons (by simp)] at hlast
    have ih := tryProviders_all_fail up refs (q :: rest) (some e) elast (by simp)
      (fun r hr => hall r (List.mem_cons_of_mem p hr)) hlast'
    have step : tryProviders (p :: q :: rest) up refs le
        = ((tryProviders (q :: rest) up refs (some e)).1,
           p.name :: (tryProviders (q :: rest) up refs (some e)).2) := by
      conv_lhs => rw [tryProviders]
      rw [he]
    rw [step, ih]
    simp

/-- Claim C5: fallback policy of the orchestrator.  With non-empty chunks
and no requested provider, if the registry splits as `pre ++ p :: rest`
with every provider of `pre` failing and `p` succeeding with `a`, the call
returns `a` with references equal to the raw chunk texts in retrieval
order, having invoked exactly the providers of `pre` and then `p`, once
each, in priority order (so the earlier failures are not surfaced and
`rest` is never reached); and if every provider of a non-empty registry
fails, the call fails with the aggregate error naming the last provider's
error, having invoked each provider exactly once in order. -/
theorem generate_answer_fallback (ps : List Provider) (q : String)
    (chunks : List QueryResult) (hch : chunks ≠ []) :
    (∀ (pre : List Provider) (p : Provider) (rest : List Provider) (a : String),
      ps = pre ++ p :: rest →
      (∀ r ∈ pre, ∃ e,
        r.generate SYSTEM_PROMPT (userPrompt (buildContext chunks) q) = Except.error e) →
      p.generate SYSTEM_PROMPT (userPrompt (buildContext chunks) q) = Except.ok a →
      generate_answer ps q chunks none =
        (Except.ok { answer := a, references := chunks.map QueryResult.text },
         pre.map Provider.name ++ [p.name])) ∧
    (∀ (hne : ps ≠ []) (elast : String),
      (∀ r ∈ ps, ∃ e,
        r.generate SYSTEM_PROMPT (userPrompt (buildContext chunks) q) = Except.error e) →
      (ps.getLast hne).generate SYSTEM_PROMPT (userPrompt (buildContext chunks) q)
        = Except.error elast →
      generate_answer ps q chunks none =
        (Except.error (allFailedError elast), ps.map Provider.name)) := by
  have hch' : chunks.isEmpty = false := by
    cases chunks with
    | nil => exact absurd rfl hch
    | cons a l => rfl
  constructor
  · intro pre p rest a hsplit hpre hp
    have hps : ps.isEmpty = false := by
      subst hsplit
      cases pre <;> rfl
    rw [generate_answer]
    simp only [hch', Bool.false_eq_true, if_false, hps]
    subst hsplit
    exact tryProviders_first_success _ _ a pre p rest none hpre hp
  · intro hne elast hall hlast
    have hps : ps.isEmpty = false := by
      cases ps with
      | nil => exact absurd rfl hne
      | cons a l => rfl
    rw [generate_answer]
    simp only [hch', Bool.false_eq_true, if_false, hps]
    exact tryProviders_all_fail _ _ ps none elast hne hall hlast

/-- Exercises C5 on closed inputs: the primary provider raises, the
secondary succeeds; the answer comes from the secondary, the references
are the chunk texts, and both providers were invoked once in order. -/
theorem generate_answer_fallback_witness :
    generate_answer [providerFailW, providerOkW] "q" [qrW] none =
      (Except.ok { answer := "It draws 5A.", references := ["The motor draws 5A."] },
       ["openai", "gemini"]) := by
  have h := (generate_answer_fallback [providerFailW, providerOkW] "q" [qrW]
      (by simp)).1 [providerFailW] providerOkW [] "It draws 5A." rfl
    (by intro r hr; simp at hr; subst hr; exact ⟨"boom", rfl⟩) rfl
  simpa [providerFailW, providerOkW, qrW] using h

theorem addVecs_ok_inv (env : Env Vec) {ix ix1 : FaissIndex Vec} {rows : List Vec}
    (h : addVecs env ix rows = Except.ok ix1) :
    ix1 = { ix with vecs := ix.vecs ++ rows } := by
  unfold addVecs at h
  split at h
  · injection h with h
    exact h.symm
  · exact absurd h (by simp)

theorem ntotal_eq (s : VState Vec) : ntotal s = (indexVecs s).length := by
  cases h : s.index <;> simp [ntotal, indexVecs, h]

theorem indexVecs_saveState (s : VState Vec) : indexVecs (saveState s) = indexVecs s := by
  cases h : s.index <;> simp [saveState, indexVecs, h]

/-- Claim C2: on a successful `add_chunks` of a non-empty batch, the return
value is the batch length, `total_chunks` grows by exactly the batch
length, and the metadata log is extended by one record per chunk carrying
the chunk's text and metadata, in batch order. -/
theorem add_chunks_spec (env : Env Vec) (s : VState Vec) (chunks : List Chunk)
    (hlen : EmbedLen env) (hch : chunks ≠ []) (s2 : VState Vec) (n : Nat)
    (hrun : add_chunks env s chunks = (s2, Except.ok n)) :
    n = chunks.length ∧
    (get_collection_stats env s2).total_chunks
      = (get_collection_stats env s).total_chunks + chunks.length ∧
    s2.documents.map (fun r => (r.text, r.metadata))
      = s.documents.map (fun r => (r.text, r.metadata))
        ++ chunks.map (fun c => (c.text, c.metadata)) := by
  have hch' : chunks.isEmpty = false := by
    cases chunks with
    | nil => exact absurd rfl hch
    | cons a l => rfl
  rw [add_chunks] at hrun
  simp only [hch', Bool.false_eq_true, if_false] at hrun
  cases hemb : env.embedTexts (chunks.map Chunk.text) with
  | error e =>
    simp only [hemb] at hrun
    simp at hrun
  | ok embeddings =>
    simp only [hemb] at hrun
    have hel : embeddings.length = chunks.length := by
      have := hlen _ _ hemb
      simpa using this
    cases hdim : matrixDim env embeddings with
    | error e =>
      simp only [hdim] at hrun
      simp at hrun
    | ok d =>
      simp only [hdim] at hrun
      cases hix : s.index with
      | none =>
        simp only [hix] at hrun
        cases haddv : addVecs env { d := d, vecs := [] } (embeddings.map env.norm) with
        | error e =>
          simp only [haddv] at hrun
          simp at hrun
        | ok ix1 =>
          simp only [haddv] at hrun
          have hix1 := addVecs_ok_inv env haddv
          rw [Prod.mk.injEq] at hrun
          obtain ⟨hs2, hn⟩ := hrun
          injection hn with hn
          refine ⟨hn.symm, ?_, ?_⟩
          · rw [get_collection_stats, get_collection_stats]
            simp only
            rw [ntotal_eq, ntotal_eq, ← hs2, indexVecs_saveState]
            simp [indexVecs, hix1, hix, hel]
          · rw [← hs2, saveState_documents]
            simp only [List.map_append, mkRecords_proj, List.zip_map']
      | some ix =>
        simp only [hix] at hrun
        cases haddv : addVecs env ix (embeddings.map env.norm) with
        | error e =>
          simp only [haddv] at hrun
          simp at hrun
        | ok ix1 =>
          simp only [haddv] at hrun
          have hix1 := addVecs_ok_inv env haddv
          rw [Prod.mk.injEq] at hrun
          obtain ⟨hs2, hn⟩ := hrun
          injection hn with hn
          refine ⟨hn.symm, ?_, ?_⟩
          · rw [get_collection_stats, get_collection_stats]
            simp only
            rw [ntotal_eq, ntotal_eq, ← hs2, indexVecs_saveState]
            simp [indexVecs, hix1, hix, hel]
          · rw [← hs2, saveState_documents]
            simp only [List.map_append, mkRecords_proj, List.zip_map']

/-- Exercises C2 on a closed input: adding one chunk to the empty store. -/
theorem add_chunks_spec_witness :
    (get_collection_stats envW stateW).total_chunks
      = (get_collection_stats envW emptyState).total_chunks + [chunkW].length ∧
    stateW.documents.map (fun r => (r.text, r.metadata))
      = emptyState.documents.map (fun r => (r.text, r.metadata))
        ++ [chunkW].map (fun c => (c.text, c.metadata)) := by
  have h := add_chunks_spec envW emptyState [chunkW]
    (by intro ts vs hv; injection hv with hv; simp [← hv]) (by simp) stateW 1 rfl
  exact ⟨h.2.1, h.2.2⟩

/-- Claim C3: atomicity of `add_chunks`.  If any collaborator step raises
(embedding, array construction, index growth), the raised error propagates
and the entire state — in-memory index, metadata log, persisted artifacts —
is exactly the pre-state; on success with a non-empty batch, everything is
persisted: both disk artifacts equal the new in-memory structures. -/
theorem add_chunks_atomic (env : Env Vec) (s : VState Vec) (chunks : List Chunk)
    (hnd : NormDim env) :
    (∀ s2 e, add_chunks env s chunks = (s2, Except.error e) → s2 = s) ∧
    (∀ s2 n, chunks ≠ [] → add_chunks env s chunks = (s2, Except.ok n) →
      n = chunks.length ∧ s2.diskIndex = s2.index ∧ s2.diskDocs = some s2.documents) := by
  by_cases hch : chunks.isEmpty
  · constructor
    · intro s2 e h
      rw [add_chunks, if_pos hch] at h
      simp at h
    · intro s2 n hne _
      cases chunks with
      | nil => exact absurd rfl hne
      | cons a l => exact absurd hch (by simp)
  · have hch' : chunks.isEmpty = false := by simpa using hch
    constructor
    · intro s2 e h
      rw [add_chunks] at h
      simp only [hch', Bool.false_eq_true, if_false] at h
      cases hemb : env.embedTexts (chunks.map Chunk.text) with
      | error e1 =>
        simp only [hemb] at h
        rw [Prod.mk.injEq] at h
        exact h.1.symm
      | ok embeddings =>
        simp only [hemb] at h
        cases hdim : matrixDim env embeddings with
        | error e1 =>
          simp only [hdim] at h
          rw [Prod.mk.injEq] at h
          exact h.1.symm
        | ok d =>
          simp only [hdim] at h
          cases hix : s.index with
          | none =>
            simp only [hix] at h
            have hvalid : ∀ v ∈ embeddings.map env.norm,
                env.dim v = (({ d := d, vecs := [] } : FaissIndex Vec)).d := by
              intro v hv
              obtain ⟨w, hw, rfl⟩ := List.mem_map.mp hv
              rw [hnd w]
              exact matrixDim_mem env hdim w hw
            simp only [addVecs_ok env _ _ hvalid] at h
            simp at h
          | some ix =>
            simp only [hix] at h
            cases haddv : addVecs env ix (embeddings.map env.norm) with
            | error e1 =>
              simp only [haddv] at h
              rw [Prod.mk.injEq] at h
              exact h.1.symm
            | ok ix1 =>
              simp only [haddv] at h
              simp at h
    · intro s2 n _ h
      rw [add_chunks] at h
      simp only [hch', Bool.false_eq_true, if_false] at h
      cases hemb : env.embedTexts (chunks.map Chunk.text) with
      | error e1 =>
        simp only [hemb] at h
        simp at h
      | ok embeddings =>
        simp only [hemb] at h
        cases hdim : matrixDim env embeddings with
        | error e1 =>
          simp only [hdim] at h
          simp at h
        | ok d =>
          simp only [hdim] at h
          cases hix : s.index with
          | none =>
            simp only [hix] at h
            cases haddv : addVecs env { d := d, vecs := [] } (embeddings.map env.norm) with
            | error e1 =>
              simp only [haddv] at h
              simp at h
            | ok ix1 =>
              simp only [haddv] at h
              rw [Prod.mk.injEq] at h
              obtain ⟨hs2, hn⟩ := h
              injection hn with hn
              refine ⟨hn.symm, ?_⟩
              rw [← hs2]
              simp [saveState]
          | some ix =>
            simp only [hix] at h
            cases haddv : addVecs env ix (embeddings.map env.norm) with
            | error e1 =>
              simp only [haddv] at h
              simp at h
            | ok ix1 =>
              simp only [haddv] at h
              rw [Prod.mk.injEq] at h
              obtain ⟨hs2, hn⟩ := h
              injection hn with hn
              refine ⟨hn.symm, ?_⟩
              rw [← hs2]
              simp [saveState]

/-- Exercises C3 on a closed input: the successful one-chunk add persists
both artifacts. -/
theorem add_chunks_atomic_witness :
    stateW.diskIndex = stateW.index ∧ stateW.diskDocs = some stateW.documents := by
  have h := (add_chunks_atomic envW emptyState [chunkW] (fun v => rfl)).2 stateW 1
    (by simp) rfl
  exact h.2

theorem not_mem_list_documents (s : VState Vec) (src : String)
    (h : ∀ r ∈ s.documents, r.metadata.source ≠ some src) :
    src ∉ list_documents s := by
  unfold list_documents
  split
  · simp
  · intro hmem
    have h1 := (List.Perm.mem_iff (List.perm_insertionSort _ _)).mp hmem
    rw [List.mem_dedup, List.mem_filter] at h1
    obtain ⟨h1, _⟩ := h1
    rw [List.mem_filterMap] at h1
    obtain ⟨doc, hdoc, hsrc⟩ := h1
    exact h doc hdoc hsrc

/-- Claim C9: once `delete_document` returns, the deleted source is absent
from `list_documents`; and when every record matches the source, the call
is exactly a full reset (and returns true).  The hypothesis is the load
invariant that a store without an index holds no records. -/
theorem delete_document_removes_source (env : Env Vec) (s : VState Vec) (src : String)
    (h0 : s.index = none → s.documents = []) :
    (∀ s2 b, delete_document env s src = (s2, Except.ok b) → src ∉ list_documents s2) ∧
    (s.documents ≠ [] → (∀ r ∈ s.documents, r.metadata.source = some src) →
      delete_document env s src = (reset_collection s, Except.ok true)) := by
  constructor
  · intro s2 b hrun
    rw [delete_document] at hrun
    split at hrun
    · next hguard =>
      rw [Prod.mk.injEq] at hrun
      obtain ⟨hs2, _⟩ := hrun
      have hdocs : s.documents = [] := by
        rcases hguard with hg | hg
        · exact h0 (Option.isNone_iff_eq_none.mp hg)
        · exact List.isEmpty_iff.mp hg
      rw [← hs2]
      simp [list_documents, hdocs]
    · dsimp only at hrun
      split at hrun
      · next hlen =>
        rw [Prod.mk.injEq] at hrun
        obtain ⟨hs2, _⟩ := hrun
        rw [← hs2]
        refine not_mem_list_documents s src ?_
        intro r hr
        have := List.filter_length_eq_length.mp hlen r hr
        simpa using this
      · split at hrun
        · rw [Prod.mk.injEq] at hrun
          obtain ⟨hs2, _⟩ := hrun
          rw [← hs2]
          simp [list_documents, reset_collection]
        · split at hrun
          · simp at hrun
          · split at hrun
            · simp at hrun
            · split at hrun
              · simp at hrun
              · rw [Prod.mk.injEq] at hrun
                obtain ⟨hs2, _⟩ := hrun
                rw [← hs2]
                refine not_mem_list_documents _ src ?_
                intro r hr
                rw [saveState_documents] at hr
                simp only at hr
                have := (List.mem_filter.mp hr).2
                simpa using this
  · intro hne hall
    have hixne : s.index.isNone = false := by
      cases hix : s.index with
      | none => exact absurd (h0 hix) hne
      | some ix => rfl
    have hde : s.documents.isEmpty = false := by
      cases hd : s.documents with
      | nil => exact absurd hd hne
      | cons a l => rfl
    have hfilter : s.documents.filter (fun doc => doc.metadata.source ≠ some src) = [] := by
      rw [List.filter_eq_nil_iff]
      intro a ha
      simp [hall a ha]
    rw [delete_document, if_neg (by simp [hixne, hde])]
    simp only [hfilter, List.length_nil, List.isEmpty_nil]
    rw [if_neg (fun hc => hne (List.length_eq_zero.mp hc.symm))]
    exact if_pos trivial

/-- Exercises C9 on a closed input: deleting the only source resets the
store and the source disappears from the listing. -/
theorem delete_document_removes_source_witness :
    delete_document envW stateW "spec.pdf" = (reset_collection stateW, Except.ok true) ∧
    "spec.pdf" ∉ list_documents (delete_document envW stateW "spec.pdf").1 := by
  have h := delete_document_removes_source envW stateW "spec.pdf" (by decide)
  have heq := h.2 (by decide) (by decide)
  refine ⟨heq, ?_⟩
  have hmem := h.1 (reset_collection stateW) true heq
  rw [heq]
  exact hmem

theorem filterMap_distance_sublist (f : Rat × Int → Option QueryResult)
    (hf : ∀ x r, f x = some r → r.distance = x.1) :
    ∀ l : List (Rat × Int),
      ((l.filterMap f).map QueryResult.distance).Sublist (l.map Prod.fst)
  | [] => List.Sublist.refl _
  | x :: l => by
    cases hx : f x with
    | none =>
      rw [List.filterMap_cons_none hx, List.map_cons]
      exact List.Sublist.cons _ (filterMap_distance_sublist f hf l)
    | some r =>
      rw [List.filterMap_cons_some hx, List.map_cons, List.map_cons, hf x r hx]
      exact List.Sublist.cons₂ _ (filterMap_distance_sublist f hf l)

/-- Claim C4: `query` postcondition.  Under the FAISS contract (at most k
hits, sorted by descending score), a query with positive k on an empty or
uninitialized store returns the empty list (not an error); and any
successful result has at most `min k total_chunks` entries, is ordered by
descending similarity score, and every returned entry is built from a
record of the metadata log — hit positions with no record are skipped. -/
theorem query_spec (env : Env Vec) (s : VState Vec) (question : String) (k : Nat)
    (hk : 0 < k) (hb : SearchBound env) (hs : SearchSorted env) :
    ((s.index = none ∨ ntotal s = 0) → query env s question (some k) = Except.ok []) ∧
    (∀ res, query env s question (some k) = Except.ok res →
      res.length ≤ min k (ntotal s) ∧
      List.Sorted (fun a b : Rat => b ≤ a) (res.map QueryResult.distance) ∧
      ∀ r ∈ res, ∃ rec, rec ∈ s.documents ∧ r.text = rec.text ∧ r.metadata = rec.metadata) := by
  have hkne : ¬(k = 0) := Nat.pos_iff_ne_zero.mp hk
  constructor
  · intro hempty
    cases hix : s.index with
    | none =>
      rw [query]
      simp [hix]
    | some ix =>
      have hzero : ix.vecs.length = 0 := by
        rcases hempty with hin | hz
        · rw [hin] at hix
          cases hix
        · rw [ntotal_eq] at hz
          simpa [indexVecs, hix] using hz
      rw [query]
      simp [hix, hzero]
  · intro res hres
    rw [query] at hres
    cases hix : s.index with
    | none =>
      simp only [hix] at hres
      injection hres with hres
      subst hres
      exact ⟨by simp, by simp, by simp⟩
    | some ix =>
      simp only [hix] at hres
      by_cases hz : ix.vecs.length = 0
      · rw [if_pos hz] at hres
        injection hres with hres
        subst hres
        exact ⟨by simp, by simp, by simp⟩
      · rw [if_neg hz] at hres
        cases hq : env.embedQuery question with
        | error e =>
          simp only [hq] at hres
          exact absurd hres (by simp)
        | ok qv =>
          simp only [hq] at hres
          injection hres with hres
          subst hres
          have hkk : (if k = 0 then env.topKDefault else k) = k := if_neg hkne
          rw [hkk]
          have hntot : ntotal s = ix.vecs.length := by
            rw [ntotal_eq]
            simp [indexVecs, hix]
          have hf : ∀ (x : Rat × Int) (r : QueryResult),
              (if x.2 < 0 ∨ (s.documents.length : Int) ≤ x.2 then none
               else (s.documents.get? x.2.toNat).map
                 (fun doc => { text := doc.text, metadata := doc.metadata, distance := x.1 }))
                = some r → r.distance = x.1 := by
            intro x r hxr
            split at hxr
            · exact absurd hxr (by simp)
            · obtain ⟨doc, _, hg⟩ := Option.map_eq_some'.mp hxr
              rw [← hg]
          refine ⟨?_, ?_, ?_⟩
          · rw [hntot]
            calc (List.filterMap _ _).length
                ≤ (env.search ix.vecs (env.norm qv) (min k ix.vecs.length)).length :=
                  List.length_filterMap_le _ _
              _ ≤ min k ix.vecs.length := hb _ _ _
          · have hpair : List.Pairwise (fun a b : Rat => b ≤ a)
                ((env.search ix.vecs (env.norm qv) (min k ix.vecs.length)).map Prod.fst) :=
              List.pairwise_map.mpr (hs ix.vecs (env.norm qv) (min k ix.vecs.length))
            exact List.Pairwise.sublist (filterMap_distance_sublist _ hf _) hpair
          · intro r hr
            rw [List.mem_filterMap] at hr
            obtain ⟨x, _, hfx⟩ := hr
            split at hfx
            · exact absurd hfx (by simp)
            · obtain ⟨doc, hdoc, hg⟩ := Option.map_eq_some'.mp hfx
              exact ⟨doc, List.get?_mem hdoc, by rw [← hg], by rw [← hg]⟩

/-- Exercises C4 on closed inputs: the empty store yields the empty result,
and a successful query on the one-chunk store respects the k bound. -/
theorem query_spec_witness :
    query envW emptyState "What is the motor current?" (some 2) = Except.ok [] ∧
    ([] : List QueryResult).length ≤ min 2 (ntotal stateW) := by
  constructor
  · exact (query_spec envW emptyState "What is the motor current?" 2 (by decide)
      (fun vs qv kk => by simp [envW]) (fun vs qv kk => by simp [envW])).1 (Or.inl rfl)
  · exact ((query_spec envW stateW "What is the motor current?" 2 (by decide)
      (fun vs qv kk => by simp [envW]) (fun vs qv kk => by simp [envW])).2 [] rfl).1

theorem rows_dim_valid (env : Env Vec) {embeddings : List Vec} {d : Nat}
    (hnd : NormDim env) (hdim : matrixDim env embeddings = Except.ok d) :
    ∀ v ∈ embeddings.map env.norm, env.dim v = d := by
  intro v hv
  obtain ⟨w, hw, rfl⟩ := List.mem_map.mp hv
  rw [hnd w]
  exact matrixDim_mem env hdim w hw

theorem inv_of_vecs (env : Env Vec) (f : String → Vec) (s : VState Vec)
    (h : indexVecs s = s.documents.map (fun r => env.norm (f r.text))) :
    Inv env f s := by
  refine ⟨?_, h⟩
  rw [ntotal_eq, h, List.length_map]

theorem mkRecords_map_text (fid : Nat → String) (g : String → Vec) :
    ∀ (n : Nat) (pairs : List (String × Meta)),
      (mkRecords fid n pairs).map (fun r => g r.text) = pairs.map (fun p => g p.1)
  | _, [] => rfl
  | n, (t, m) :: rest => by
    simp [mkRecords, mkRecords_map_text fid g (n + 1) rest]

theorem inv_add_chunks (env : Env Vec) (f : String → Vec) (s : VState Vec)
    (chunks : List Chunk) (hpw : EmbedPointwise env f) (hnd : NormDim env)
    (hinv : Inv env f s) : Inv env f (add_chunks env s chunks).1 := by
  by_cases hch : chunks.isEmpty
  · rw [add_chunks, if_pos hch]
    exact hinv
  · have hch' : chunks.isEmpty = false := by simpa using hch
    rw [add_chunks]
    simp only [hch', Bool.false_eq_true, if_false]
    cases hemb : env.embedTexts (chunks.map Chunk.text) with
    | error e =>
      simp only [hemb]
      exact hinv
    | ok embeddings =>
      simp only [hemb]
      have hembs : embeddings = (chunks.map Chunk.text).map f := hpw _ _ hemb
      cases hdim : matrixDim env embeddings with
      | error e =>
        simp only [hdim]
        exact hinv
      | ok d =>
        simp only [hdim]
        cases hix : s.index with
        | none =>
          simp only [hix]
          have hdocs : s.documents = [] := by
            have h2 := hinv.2
            have h3 : ([] : List Vec) = s.documents.map (fun r => env.norm (f r.text)) := by
              rw [← h2]
              simp [indexVecs, hix]
            exact (List.map_eq_nil_iff.mp h3.symm)
          rw [addVecs_ok env _ _ (rows_dim_valid env hnd hdim)]
          have hmk : ∀ pairs : List (String × Meta),
              (mkRecords env.freshId 0 pairs).map (fun r => env.norm (f r.text))
                = pairs.map (fun p => env.norm (f p.1)) :=
            fun pairs => mkRecords_map_text env.freshId (fun t => env.norm (f t)) 0 pairs
          apply inv_of_vecs
          rw [indexVecs_saveState, saveState_documents]
          simp [indexVecs, hdocs, hembs, hmk, List.zip_map', List.map_map, Function.comp]
        | some ix =>
          simp only [hix]
          cases haddv : addVecs env ix (embeddings.map env.norm) with
          | error e =>
            simp only [haddv]
            exact hinv
          | ok ix1 =>
            simp only [haddv]
            have hix1 := addVecs_ok_inv env haddv
            have hvecs : ix.vecs = s.documents.map (fun r => env.norm (f r.text)) := by
              have h2 := hinv.2
              rw [indexVecs] at h2
              simpa [hix] using h2
            have hmk : ∀ pairs : List (String × Meta),
                (mkRecords env.freshId 0 pairs).map (fun r => env.norm (f r.text))
                  = pairs.map (fun p => env.norm (f p.1)) :=
              fun pairs => mkRecords_map_text env.freshId (fun t => env.norm (f t)) 0 pairs
            apply inv_of_vecs
            rw [indexVecs_saveState, saveState_documents]
            simp [indexVecs, hix1, hvecs, hembs, hmk, List.zip_map', List.map_map,
              List.map_append, Function.comp]

theorem inv_delete_document (env : Env Vec) (f : String → Vec) (s : VState Vec)
    (src : String) (hpw : EmbedPointwise env f) (hnd : NormDim env)
    (hinv : Inv env f s) : Inv env f (delete_document env s src).1 := by
  rw [delete_document]
  split
  · exact hinv
  · dsimp only
    split
    · exact hinv
    · split
      · exact ⟨rfl, rfl⟩
      · cases hemb : env.embedTexts
            ((s.documents.filter (fun doc => doc.metadata.source ≠ some src)).map
              Record.text) with
        | error e =>
          simp only [hemb]
          exact hinv
        | ok embeddings =>
          simp only [hemb]
          have hembs : embeddings
              = ((s.documents.filter (fun doc => doc.metadata.source ≠ some src)).map
                  Record.text).map f := hpw _ _ hemb
          cases hdim : matrixDim env embeddings with
          | error e =>
            simp only [hdim]
            exact hinv
          | ok d =>
            simp only [hdim]
            rw [addVecs_ok env _ _ (rows_dim_valid env hnd hdim)]
            apply inv_of_vecs
            rw [indexVecs_saveState, saveState_documents]
            simp [indexVecs, hembs, List.map_map, Function.comp]

theorem inv_applyOp (env : Env Vec) (f : String → Vec) (s : VState Vec) (op : Op)
    (hpw : EmbedPointwise env f) (hnd : NormDim env) (hinv : Inv env f s) :
    Inv env f (applyOp env s op) := by
  cases op with
  | addOp chunks => exact inv_add_chunks env f s chunks hpw hnd hinv
  | deleteBySource n => exact inv_delete_document env f s n hpw hnd hinv
  | resetOp => exact ⟨rfl, rfl⟩

theorem inv_applyOps (env : Env Vec) (f : String → Vec)
    (hpw : EmbedPointwise env f) (hnd : NormDim env) :
    ∀ (ops : List Op) (s : VState Vec), Inv env f s → Inv env f (applyOps env s ops)
  | [], _, hinv => hinv
  | op :: ops, s, hinv =>
    inv_applyOps env f hpw hnd ops (applyOp env s op)
      (inv_applyOp env f s op hpw hnd hinv)

/-- Claim C1: the positional-coupling invariant — the index holds exactly
one vector per metadata-log record, the vector at position i being the
normalized embedding of the text of the record at position i — holds after
any sequence of `add_chunks`, `delete_document` and `reset_collection`
operations starting from a state satisfying it, under the
embedding-provider contract (deterministic pointwise embedding) and the
numpy contract (in-place normalization keeps row width), whether or not
individual operations succeed. -/
theorem inv_preserved_by_ops (env : Env Vec) (f : String → Vec)
    (hpw : EmbedPointwise env f) (hnd : NormDim env)
    (ops : List Op) (s : VState Vec) (hinv : Inv env f s) :
    Inv env f (applyOps env s ops) :=
  inv_applyOps env f hpw hnd ops s hinv

/-- Exercises C1 on closed inputs: add two sources, delete one (full index
rebuild), then check the invariant of the resulting state. -/
theorem inv_preserved_by_ops_witness :
    Inv envW embedW (applyOps envW emptyState
      [Op.addOp [chunkW, chunk2W], Op.deleteBySource "spec.pdf"]) := by
  exact inv_preserved_by_ops envW embedW
    (by intro ts vs hv; injection hv with hv; exact hv.symm)
    (fun v => rfl)
    [Op.addOp [chunkW, chunk2W], Op.deleteBySource "spec.pdf"]
    emptyState ⟨rfl, rfl⟩

end TractianKB
